import Mathlib

/-!
Shallow embedding of `teaser/src/certification.cc` (class `teaser::DRSCertifier`)
over exact rationals.  Dense Eigen matrices become total functions `ℕ → ℕ → ℚ`
with dimensions tracked at use sites; operations that the C++ source performs
out of bounds, or on values it never initialized, are made explicit through an
error monad (`Except CErr`).  The configuration constant `cbar2_` is a member
of the certifier object and is passed as an explicit parameter `cb`.
-/

namespace Certification

/-- Dense matrices are total functions; dimensions are tracked at use sites. -/
abbrev Mat := ℕ → ℕ → ℚ

/-- A 3-vector (an Eigen column), totalized over ℕ. -/
abbrev Pt3 := ℕ → ℚ

def zeroMat : Mat := fun _ _ => 0

def zeroPt : Pt3 := fun _ => 0

/-- Eigen `M.block<4,4>(r0, c0) = B`: overwrite a 4 x 4 block in place. -/
def wblock (M : Mat) (r0 c0 : ℕ) (B : ℕ → ℕ → ℚ) : Mat := fun r c =>
  if r0 ≤ r ∧ r < r0 + 4 ∧ c0 ≤ c ∧ c < c0 + 4 then B (r - r0) (c - c0) else M r c

/-- The fixed 9 x 16 coefficient matrix `P` of `getQCost` (certification.cc
lines 83-91), mapping `vec(qq^T)` to `vec(R)`; row-by-row as written. -/
def PtableL : List (List ℚ) :=
  [[1, 0, 0, 0, 0, -1, 0, 0, 0, 0, -1, 0, 0, 0, 0, 1],
   [0, 1, 0, 0, 1, 0, 0, 0, 0, 0, 0, 1, 0, 0, 1, 0],
   [0, 0, 1, 0, 0, 0, 0, -1, 1, 0, 0, 0, 0, -1, 0, 0],
   [0, 1, 0, 0, 1, 0, 0, 0, 0, 0, 0, -1, 0, 0, -1, 0],
   [-1, 0, 0, 0, 0, 1, 0, 0, 0, 0, -1, 0, 0, 0, 0, 1],
   [0, 0, 0, 1, 0, 0, 1, 0, 0, 1, 0, 0, 1, 0, 0, 0],
   [0, 0, 1, 0, 0, 0, 0, 1, 1, 0, 0, 0, 0, 1, 0, 0],
   [0, 0, 0, -1, 0, 0, 1, 0, 0, 1, 0, 0, -1, 0, 0, 0],
   [-1, 0, 0, 0, 0, -1, 0, 0, 0, 0, 1, 0, 0, 0, 0, 1]]

def Ptable (r c : ℕ) : ℚ := (PtableL.getD r []).getD c 0

/-- `v.squaredNorm()` for a 3-vector. -/
def sqnorm3 (v : Pt3) : ℚ := v 0 * v 0 + v 1 * v 1 + v 2 * v 2

/-- `P_k = reshape(P^T * reshape(v2_k * v1_k^T, [9,1]), [4,4])` from `getQCost`:
Eigen maps are column-major, so `vec(A)[m] = A(m % 3, m / 3)` with
`A = v2_k * v1_k^T`, and `P_k(r, c) = (P^T vec(A))[4c + r]`. -/
def Pk (a b : Pt3) (r c : ℕ) : ℚ :=
  (Finset.range 9).sum (fun m => Ptable m (4 * c + r) * (b (m % 3) * a (m / 3)))

/-- `Eigen::Matrix4d::Identity()`. -/
def idm4 (r c : ℕ) : ℚ := if r = c then 1 else 0

/-- One iteration of the `Q1` loop of `getQCost` (lines 103-118): with
`start_idx = k*4 + 4`, the blocks `(0, start_idx)` and `(start_idx, 0)` are
overwritten with their current value minus `0.5 * P_k` plus `ck/2 * I`,
where `ck = 0.5*(|v1_k|^2 + |v2_k|^2 - cbar2)`. -/
def Q1step (cb : ℚ) (v1 v2 : List Pt3) (M : Mat) (k : ℕ) : Mat :=
  let s := 4 * k + 4
  let a := v1.getD k zeroPt
  let b := v2.getD k zeroPt
  let ck : ℚ := (1/2) * (sqnorm3 a + sqnorm3 b - cb)
  let M1 := wblock M 0 s (fun r c => M r (s + c) - (1/2) * Pk a b r c + ck / 2 * idm4 r c)
  wblock M1 s 0 (fun r c => M1 (s + r) c - (1/2) * Pk a b r c + ck / 2 * idm4 r c)

/-- The `Q1` matrix of `getQCost`: starts from zero, loops `k = 0 .. N-1`. -/
def Q1mat (cb : ℚ) (v1 v2 : List Pt3) : Mat :=
  (List.range v1.length).foldl (Q1step cb v1 v2) zeroMat

/-- One iteration of the `Q2` loop of `getQCost` (lines 123-136): block
`(start_idx, start_idx)` is overwritten with its current value minus `P_k`
plus `ck * I`, where `ck = 0.5*(|v1_k|^2 + |v2_k|^2 + cbar2)`. -/
def Q2step (cb : ℚ) (v1 v2 : List Pt3) (M : Mat) (k : ℕ) : Mat :=
  let s := 4 * k + 4
  let a := v1.getD k zeroPt
  let b := v2.getD k zeroPt
  let ck : ℚ := (1/2) * (sqnorm3 a + sqnorm3 b + cb)
  wblock M s s (fun r c => M (s + r) (s + c) - Pk a b r c + ck * idm4 r c)

/-- The `Q2` matrix of `getQCost`. -/
def Q2mat (cb : ℚ) (v1 v2 : List Pt3) : Mat :=
  (List.range v1.length).foldl (Q2step cb v1 v2) zeroMat

/-- `getQCost` (lines 74-139): `*Q = Q1 + Q2`. -/
def getQCost (cb : ℚ) (v1 v2 : List Pt3) : Mat := fun r c =>
  Q1mat cb v1 v2 r c + Q2mat cb v1 v2 r c

/-- The fresh value written into the two off-diagonal blocks by `Q1step k`. -/
def q1gen (cb : ℚ) (v1 v2 : List Pt3) (k : ℕ) (r c : ℕ) : ℚ :=
  -((1:ℚ)/2) * Pk (v1.getD k zeroPt) (v2.getD k zeroPt) r c
    + (1/2) * (sqnorm3 (v1.getD k zeroPt) + sqnorm3 (v2.getD k zeroPt) - cb) / 2 * idm4 r c

/-- The fresh value written into the diagonal block by `Q2step k`. -/
def q2gen (cb : ℚ) (v1 v2 : List Pt3) (k : ℕ) (r c : ℕ) : ℚ :=
  -Pk (v1.getD k zeroPt) (v2.getD k zeroPt) r c
    + (1/2) * (sqnorm3 (v1.getD k zeroPt) + sqnorm3 (v2.getD k zeroPt) + cb) * idm4 r c

/-- Invariant carried through the `Q1` loop: after `m` iterations the matrix is
symmetric, and its support is contained in the top strip (rows `< 4`, columns
`4 .. 4m+3`) and the mirrored left strip. -/
def SymZero1 (m : ℕ) (M : Mat) : Prop :=
  (∀ r c, M r c = M c r) ∧
  (∀ r c, M r c ≠ 0 →
    ((r < 4 ∧ 4 ≤ c ∧ c < 4 * m + 4) ∨ (c < 4 ∧ 4 ≤ r ∧ r < 4 * m + 4)))

/-- Invariant carried through the `Q2` loop: after `m` iterations the matrix is
symmetric with support inside the diagonal blocks `1 .. m`. -/
def SymZero2 (m : ℕ) (M : Mat) : Prop :=
  (∀ r c, M r c = M c r) ∧
  (∀ r c, M r c ≠ 0 →
    (4 ≤ r ∧ r < 4 * m + 4 ∧ 4 ≤ c ∧ c < 4 * m + 4 ∧ r / 4 = c / 4))

/-- Faults of the C++ source made explicit by the total embedding. -/
inductive CErr where
  /-- Read outside the bounds of a matrix, vector or point list. -/
  | oobRead
  /-- Read of a declared but never-assigned (indeterminate) value. -/
  | uninitRead
  /-- Eigen comma-initializer fed a number of values different from the
  current size of the target. -/
  | commaInit
  /-- A failed `assert`. -/
  | assertFail
  /-- Control reaches the end of a non-void function without a return. -/
  | missingReturn
  deriving DecidableEq

/-- Bounds-checked read of an entry of a point list (`src.col(i)`). -/
def egetP (l : List Pt3) (i : ℕ) : Except CErr Pt3 :=
  if h : i < l.length then Except.ok (l.get ⟨i, h⟩) else Except.error CErr.oobRead

/-- Two-dimensional indexed read `v(r, c)` of a one-row Eigen vector: any row
index other than `0` is outside the vector's storage. -/
def rowVecGet (l : List ℚ) (r c : ℕ) : Except CErr ℚ :=
  if h : r = 0 ∧ c < l.length then Except.ok (l.get ⟨c, h.2⟩) else Except.error CErr.oobRead

/-- Eigen comma-initializer `v << vals...`: the number of streamed values must
equal the current size of the target vector, else it faults. -/
def commaInit (size : ℕ) (vals : List ℚ) : Except CErr (List ℚ) :=
  if vals.length = size then Except.ok vals else Except.error CErr.commaInit

/-- Modelled from the spec: sparse-matrix construction from (row, col, value)
triplets (Eigen `setFromTriplets`, required of the linear-algebra layer);
duplicate (row, col) entries accumulate by summation. -/
def setFromTriplets (ts : List (ℕ × ℕ × ℚ)) : Mat :=
  ts.foldl (fun M t => fun r c => if r = t.1 ∧ c = t.2.1 then M r c + t.2.2 else M r c)
    (fun _ _ => 0)

/-- The pairs `(i, j)` with `i < j < n`, in the order the nested source loops
visit them (outer `i` ascending, inner `j` ascending). -/
def pairList (n : ℕ) : List (ℕ × ℕ) :=
  ((List.range n).map (fun i =>
    (List.range n).filterMap (fun j => if i < j then some (i, j) else none))).flatten

/-- The `mat2vec` mapping of `getLinearProjection` (lines 390-397): a matrix of
incrementing counters over the upper-triangular pairs, zero elsewhere. -/
def mat2vecF (n : ℕ) : ℕ → ℕ → ℕ :=
  (pairList n).enum.foldl
    (fun f p => fun a b => if a = p.2.1 ∧ b = p.2.2 then p.1 else f a b)
    (fun _ _ => 0)

/-- `getLinearProjection` (lines 376-449).  Note `int y = 1 / (2 * N0 + 6)` is
C integer division of positive ints, embedded as ℕ division, and
`int x = (N0 + 1) * y` likewise. -/
def getLinearProjection (th : List ℚ) : Mat :=
  let N0 := th.length - 1
  let y : ℕ := 1 / (2 * N0 + 6)
  let x : ℕ := (N0 + 1) * y
  let N := N0 + 1
  let nr_vals := N * (N - 1) / 2
  let m2v := mat2vecF N
  let offTriplets := ((pairList N).map (fun ij =>
    let i := ij.1
    let j := ij.2
    let var1 := m2v i j
    let first := (List.range N).filterMap (fun p =>
      if p ≠ j ∧ p ≠ i then
        some (if p < i then (m2v p i, var1, (y : ℚ) * th.getD j 0 * th.getD p 0)
              else (m2v i p, var1, -(y : ℚ) * th.getD j 0 * th.getD p 0))
      else none)
    let second := (List.range N).filterMap (fun p =>
      if p ≠ i ∧ p ≠ j then
        some (if p < j then (m2v p j, var1, -(y : ℚ) * th.getD i 0 * th.getD p 0)
              else (m2v j p, var1, (y : ℚ) * th.getD i 0 * th.getD p 0))
      else none)
    first ++ second)).flatten
  let diagTriplets := (List.range nr_vals).map (fun i => (i, i, (x : ℚ)))
  setFromTriplets (offTriplets ++ diagTriplets)

/-- Modelled from the spec: the skew-symmetric hat map of a 3-vector, a
primitive of the linear-algebra layer (`teaser::hatmap`, declared in
teaser/linalg.h which is not under src/). -/
def hatmap (v : Pt3) : ℕ → ℕ → ℚ := fun r c =>
  if r = 0 ∧ c = 1 then -(v 2)
  else if r = 0 ∧ c = 2 then v 1
  else if r = 1 ∧ c = 0 then v 2
  else if r = 1 ∧ c = 2 then -(v 0)
  else if r = 2 ∧ c = 0 then -(v 1)
  else if r = 2 ∧ c = 1 then v 0
  else 0

/-- Modelled from the spec: the Kronecker product of two vectors
(`teaser::vectorKron`, declared in teaser/linalg.h which is not under src/). -/
def vectorKron (a b : List ℚ) : List ℚ :=
  (a.map (fun s => b.map (fun t => s * t))).flatten

/-- `A * v` for a 3 x 3 matrix and a 3-vector. -/
def matvec3 (A : Mat) (v : Pt3) : Pt3 := fun r =>
  A r 0 * v 0 + A r 1 * v 1 + A r 2 * v 2

/-- `A.transpose() * v` for a 3 x 3 matrix and a 3-vector. -/
def matTvec3 (A : Mat) (v : Pt3) : Pt3 := fun r =>
  A 0 r * v 0 + A 1 r * v 1 + A 2 r * v 2

/-- Product of two 3 x 3 matrices. -/
def mat3mul (A B : Mat) : Mat := fun r c =>
  A r 0 * B 0 c + A r 1 * B 1 c + A r 2 * B 2 c

/-- `u.dot(v)` for 3-vectors. -/
def dot3 (u v : Pt3) : ℚ := u 0 * v 0 + u 1 * v 1 + u 2 * v 2

/-- `Eigen::Matrix3d::Identity()`. -/
def idm3 (r c : ℕ) : ℚ := if r = c ∧ r < 3 then 1 else 0

/-- A quaternion as stored by `Eigen::Quaterniond` (fields x, y, z, w). -/
structure Quat where
  x : ℚ
  y : ℚ
  z : ℚ
  w : ℚ

/-- `getOmega1` (lines 141-150), row by row exactly as in the source comma
initializer (note the repeated `q.z()` entries). -/
def getOmega1 (q : Quat) : Mat := fun r c =>
  (([[q.w, -q.z, q.y, q.x],
     [q.z, q.w, -q.z, q.y],
     [-q.y, q.z, q.w, q.z],
     [-q.z, -q.y, -q.z, q.w]].getD r []).getD c 0)

/-- `getBlockDiagOmega` (lines 152-161): zero matrix with `getOmega1 q` written
on each of the `Npm / 4` diagonal 4 x 4 blocks. -/
def getBlockDiagOmega (Npm : ℕ) (q : Quat) : Mat :=
  (List.range (Npm / 4)).foldl (fun M i => wblock M (4 * i) (4 * i) (getOmega1 q)) zeroMat

/-- `getBlockRowSum` (lines 451-466).  The source sets `start_idx = row`
(not `row * 4`) and multiplies the 4 x `A.cols()` slice starting at that row
by `kron(theta, unit)` where `unit = e4`. -/
def getBlockRowSum (A : Mat) (Acols : ℕ) (row : ℕ) (th : List ℚ) : ℕ → ℚ :=
  let unit : List ℚ := [0, 0, 0, 1]
  let vec := vectorKron th unit
  let start_idx := row
  fun r => (Finset.range Acols).sum (fun c => A (start_idx + r) c * vec.getD c 0)

/-- The per-pair body of the first loop of `getOptimalDualProjection`
(lines 180-219): `col_idx_end` is computed as `i*4 + 3` (line 187, not
`j*4 + 3`), the second comma-assignment writes `temp_A` again (line 198)
instead of `temp_B`, and the product `temp_A * temp_CD + temp_B * temp_EF`
(line 213) therefore reads `temp_B`, which was declared and never assigned. -/
def bWrow (W : Mat) (th : List ℚ) (i j : ℕ) : Except CErr (ℕ → ℚ) :=
  let row_idx_start := i * 4
  let row_idx_end := i * 4 + 3
  let col_idx_start := j * 4
  let col_idx_end := i * 4 + 3
  let theta_ij := th.getD i 0 * th.getD j 0
  let _tempA : ℚ × ℚ := (-theta_ij, 1)
  let _tempA : ℚ × ℚ := (-1, theta_ij)
  let _tempC : ℕ → ℚ := fun c => W row_idx_end (row_idx_start + c)
  let _tempD : ℕ → ℚ := fun c => W col_idx_end (row_idx_start + c)
  let _tempE : ℕ → ℚ := fun c => W row_idx_end (col_idx_start + c)
  let _tempF : ℕ → ℚ := fun c => W col_idx_end (col_idx_start + c)
  Except.error CErr.uninitRead

/-- `getOptimalDualProjection` (lines 163-286).  `Npm = W.rows()` is passed
explicitly.  The `b_W` loop faults for every `N ≥ 1` (see `bWrow`); the
remainder of the function is embedded faithfully after it.  In the source,
`W_dual->setZero()` precedes `W_dual->resize(Npm, Npm)`, so freshly allocated
storage would be uninitialized; it is modelled as zero here, which only
matters on the `N = 0` path where no off-diagonal block is ever written. -/
def getOptimalDualProjection (Npm : ℕ) (W : Mat) (th : List ℚ) (Ainv : Mat) :
    Except CErr Mat := do
  let N := Npm / 4 - 1
  if th.length ≠ N + 1 then throw CErr.assertFail
  let bW ← (pairList (N + 1)).mapM (fun ij => bWrow W th ij.1 ij.2)
  let bWdual : Mat := fun r c =>
    (Finset.range bW.length).sum (fun k => Ainv r k * (bW.getD k (fun _ => 0)) c)
  -- off-diagonal assembly; the 4 x Npm strip `W_dual_i` and the counter are
  -- declared outside the loop and carried across iterations
  let st := (List.range N).foldl (fun (st : Mat × Mat × ℕ) i =>
    let inner := ((List.range (N + 1)).filter (fun j => i < j)).foldl (fun p j =>
      let Wij : Mat := fun r c => W (i * 4 + r) (j * 4 + c)
      let ydual : Pt3 := fun r => bWdual p.2 r
      let Wd : Mat := fun r c =>
        if c = 3 ∧ r < 3 then ydual r
        else if r = 3 ∧ c < 3 then -(ydual c)
        else (Wij r c - Wij c r) / 2
      (wblock p.1 0 (j * 4) Wd, p.2 + 1))
      (st.2.1, st.2.2)
    ((fun r c => if i * 4 ≤ r ∧ r < i * 4 + 4 then inner.1 (r - i * 4) c else st.1 r c),
     inner.1, inner.2))
    ((zeroMat, zeroMat, 0) : Mat × Mat × ℕ)
  let Wdual1 := st.1
  -- *W_dual = *W_dual + W_dual->transpose()
  let Wdual2 : Mat := fun r c => Wdual1 r c + Wdual1 c r
  -- project the diagonal blocks, accumulating W_diag_sum_33
  let diag := (List.range (N + 1)).foldl (fun (st2 : Mat × Mat) i =>
    let rsum := getBlockRowSum st2.1 Npm i th
    let thI := th.getD i 0
    let Wii : Mat := fun r c =>
      if r = 3 then -thI * rsum c
      else if c = 3 then -thI * rsum r
      else W (i * 4 + r) (i * 4 + c)
    (wblock st2.1 (i * 4) (i * 4) Wii, (fun r c => st2.2 r c + Wii r c : Mat)))
    ((Wdual2, zeroMat) : Mat × Mat)
  let S33 := diag.2
  -- W_diag_mean: zero 4 x 4 with top-left corner S33 / (N + 1)
  let Wmean4 : Mat := fun r c => if r < 3 ∧ c < 3 then S33 r c / ((N : ℚ) + 1) else 0
  let tiled := (List.range (N + 1)).foldl (fun T i => wblock T (4 * i) (4 * i) Wmean4) zeroMat
  pure (fun r c => diag.1 r c - tiled r c)

/-- The per-correspondence 4 x 4 `current_block` of `getLambdaGuess` after one
loop iteration: entry (3,3), then the top-left 3 x 3, then the first column
(`topLeftCorner<3,1>`) and the bottom-left row are overwritten with the vector
part.  The top three entries of column 3 are never written and keep their
`Matrix4d::Zero` initialization. -/
def lambdaBlock (e33 : ℚ) (tl : Mat) (vp : Pt3) : Mat := fun r c =>
  if r = 3 ∧ c = 3 then e33
  else if c = 0 ∧ r < 3 then vp r
  else if r = 3 ∧ c < 3 then vp c
  else if r < 3 ∧ c < 3 then tl r c
  else 0

/-- `getLambdaGuess` (lines 288-374).  `K = theta.size()`; each iteration
reads `theta(1, i)`, a two-dimensional access with row index 1 into the
one-row vector `theta`. -/
def getLambdaGuess (cb : ℚ) (R : Mat) (th : List ℚ) (src dst : List Pt3) :
    Except CErr Mat := do
  let K := th.length
  let _Npm := 4 * K + 4
  let blocks ← (List.range K).mapM (fun i => do
    let srcI ← egetP src i
    let src_i_hatmap := hatmap srcI
    let ti ← rowVecGet th 1 i
    if ti > 0 then do
      let dstI ← egetP dst i
      let xi : Pt3 := matTvec3 R (fun r => dstI r - matvec3 R srcI r)
      let xi_hatmap := hatmap xi
      let e33 : ℚ := -(3/4) * sqnorm3 xi - (1/4) * cb
      let tl : Mat := fun r c =>
        mat3mul src_i_hatmap src_i_hatmap r c
          - (1/2) * dot3 srcI xi * idm3 r c
          + (1/2) * mat3mul xi_hatmap src_i_hatmap r c
          + (1/2) * (xi r * srcI c)
          - (3/4) * sqnorm3 xi * idm3 r c
          - (1/4) * cb * idm3 r c
      let vp : Pt3 := fun r => -(3/2) * matvec3 xi_hatmap srcI r
      pure (lambdaBlock e33 tl vp)
    else do
      let dstI ← egetP dst i
      let phi : Pt3 := matTvec3 R (fun r => dstI r - matvec3 R srcI r)
      let phi_hatmap := hatmap phi
      let e33 : ℚ := -(1/4) * sqnorm3 phi - (3/4) * cb
      let tl : Mat := fun r c =>
        mat3mul src_i_hatmap src_i_hatmap r c
          - (1/2) * dot3 srcI phi * idm3 r c
          + (1/2) * mat3mul phi_hatmap src_i_hatmap r c
          + (1/2) * (phi r * srcI c)
          - (1/4) * sqnorm3 phi * idm3 r c
          - (1/4) * cb * idm3 r c
      let vp : Pt3 := fun r => -(1/2) * matvec3 phi_hatmap srcI r
      pure (lambdaBlock e33 tl vp))
  -- each block contributes its negation at block (i, i) (column-major order),
  -- and `topleft_block`, the running sum of the blocks, is added at (0, 0);
  -- `setFromTriplets` accumulates the overlap at block (0, 0)
  let entryTriplets := (blocks.enum.map (fun p =>
    ((List.range 4).map (fun col => (List.range 4).map (fun row =>
      (p.1 * 4 + row, p.1 * 4 + col, -(p.2 row col))))).flatten)).flatten
  let topleft : Mat := fun r c => blocks.foldl (fun acc B => acc + B r c) 0
  let topTriplets := ((List.range 4).map (fun col => (List.range 4).map (fun row =>
    (row, col, topleft row col)))).flatten
  pure (setFromTriplets (entryTriplets ++ topTriplets))

/-- Modelled from the spec: the result object returned by `certify` (declared
in teaser/certification.h, which is not under src/); it carries the ordered
sub-optimality gap trajectory and a termination status. -/
structure CertificationResult where
  suboptim_traj : List ℚ
  exceeded_maxiters : Bool

/-- `certify` (lines 12-72).  The Eigen rotation-to-quaternion conversion and
normalization (third-party Eigen code, irrational in general) is passed as the
parameter `toQuat`; it is never consulted, because `certify` faults on its
first statement: `theta_prepended` is declared with dynamic size (hence
size 0) and never resized before the comma-initializer streams `N + 1` values
into it.  `theta.cast<double>()` maps `true` to 1 and `false` to 0. -/
def certify (cb : ℚ) (max_iterations : ℕ) (toQuat : Mat → Quat) (R_solution : Mat)
    (src dst : List Pt3) (theta : List Bool) : Except CErr CertificationResult := do
  let N := src.length
  let Npm := 4 + 4 * N
  let theta_prepended ← commaInit 0 ((1 : ℚ) :: theta.map (fun b => if b then 1 else 0))
  let _inverse_map := getLinearProjection theta_prepended
  let Q_cost := getQCost cb src dst
  let q := toQuat R_solution
  let q_solution_vec : List ℚ := [q.x, q.y, q.z, q.w]
  let x : List ℚ := vectorKron theta_prepended q_solution_vec
  let D_omega := getBlockDiagOmega Npm q
  let Q_bar : Mat := fun r c =>
    (Finset.range Npm).sum (fun a => (Finset.range Npm).sum (fun b =>
      D_omega a r * Q_cost a b * D_omega b c))
  let _x_bar : Pt3 := fun r => (Finset.range Npm).sum (fun a => D_omega a r * x.getD a 0)
  -- J_bar is declared Npm x Npm and only its (0,0) block is written; the rest
  -- is uninitialized in the source (unreachable: the comma-initializer above
  -- faults first, and getLambdaGuess below faults before J_bar is read)
  let J_bar : Mat := fun r c => if r < 4 ∧ c < 4 ∧ r = c then 1 else 0
  let mu : ℚ := (Finset.range Npm).sum (fun a => x.getD a 0 *
    (Finset.range Npm).sum (fun b => Q_cost a b * x.getD b 0))
  let lambda_bar_init ← getLambdaGuess cb R_solution theta_prepended src dst
  let _M : Mat := fun r c => Q_bar r c - mu * J_bar r c - lambda_bar_init r c
  -- the iteration loop body is an unfinished stub (TODO in the source), and
  -- control then falls off the end of the non-void function
  let _ := max_iterations
  Except.error CErr.missingReturn

/-- Example point (1, 2, 3). -/
def exP1 : Pt3 := fun n => if n = 0 then 1 else if n = 1 then 2 else if n = 2 then 3 else 0

/-- Example point (2, 0, 5). -/
def exP2 : Pt3 := fun n => if n = 0 then 2 else if n = 1 then 0 else if n = 2 then 5 else 0

/-- The identity 3 x 3 matrix (a valid rotation). -/
def idMat3 : Mat := fun r c => if r = c ∧ r < 3 then 1 else 0

/-- A matrix whose every entry equals its row index. -/
def rowIdxMat : Mat := fun r _ => (r : ℚ)

/-- A symmetric example matrix (entry `r + c`). -/
def symEx : Mat := fun r c => (r : ℚ) + (c : ℚ)

/-- The unit quaternion with x = 1, y = z = w = 0. -/
def qEx : Quat := ⟨1, 0, 0, 0⟩

/-- A concrete stand-in for the rotation-to-quaternion conversion. -/
def toQuatEx : Mat → Quat := fun _ => ⟨0, 0, 0, 1⟩

lemma idm4_symm (r c : ℕ) : idm4 r c = idm4 c r := by
  unfold idm4
  by_cases h : r = c
  · subst h; rfl
  · rw [if_neg h, if_neg (fun hh => h hh.symm)]

/-- Each row of `P`, reshaped column-major into a 4 x 4 matrix, is symmetric. -/
lemma Ptable_symm : ∀ m < 9, ∀ r < 4, ∀ c < 4,
    Ptable m (4 * c + r) = Ptable m (4 * r + c) := by decide

/-- `P_k` is symmetric for every pair of input points. -/
lemma Pk_symm (a b : Pt3) (r c : ℕ) (hr : r < 4) (hc : c < 4) :
    Pk a b r c = Pk a b c r := by
  unfold Pk
  refine Finset.sum_congr rfl ?_
  intro m hm
  rw [Ptable_symm m (Finset.mem_range.mp hm) r hr c hc]

lemma q1gen_symm (cb : ℚ) (v1 v2 : List Pt3) (k r c : ℕ) (hr : r < 4) (hc : c < 4) :
    q1gen cb v1 v2 k r c = q1gen cb v1 v2 k c r := by
  unfold q1gen
  rw [Pk_symm _ _ _ _ hr hc, idm4_symm]

lemma q2gen_symm (cb : ℚ) (v1 v2 : List Pt3) (k r c : ℕ) (hr : r < 4) (hc : c < 4) :
    q2gen cb v1 v2 k r c = q2gen cb v1 v2 k c r := by
  unfold q2gen
  rw [Pk_symm _ _ _ _ hr hc, idm4_symm]

lemma wblock_in {M : Mat} {r0 c0 : ℕ} {B : ℕ → ℕ → ℚ} {r c : ℕ}
    (h : r0 ≤ r ∧ r < r0 + 4 ∧ c0 ≤ c ∧ c < c0 + 4) :
    wblock M r0 c0 B r c = B (r - r0) (c - c0) := by
  simp only [wblock]
  rw [if_pos h]

lemma wblock_out {M : Mat} {r0 c0 : ℕ} {B : ℕ → ℕ → ℚ} {r c : ℕ}
    (h : ¬(r0 ≤ r ∧ r < r0 + 4 ∧ c0 ≤ c ∧ c < c0 + 4)) :
    wblock M r0 c0 B r c = M r c := by
  simp only [wblock]
  rw [if_neg h]

/-- Entry-level description of `Q1step`: on a matrix vanishing at columns
`≥ 4k+4` of the top strip (and symmetrically), the step writes the two fresh
blocks and leaves everything else unchanged. -/
lemma q1step_apply (cb : ℚ) (v1 v2 : List Pt3) (k : ℕ) (M : Mat)
    (hM : ∀ r c, ((r < 4 ∧ 4 * k + 4 ≤ c) ∨ (c < 4 ∧ 4 * k + 4 ≤ r)) → M r c = 0)
    (r c : ℕ) :
    Q1step cb v1 v2 M k r c =
      if r < 4 ∧ 4 * k + 4 ≤ c ∧ c < 4 * k + 8 then
        q1gen cb v1 v2 k r (c - (4 * k + 4))
      else if c < 4 ∧ 4 * k + 4 ≤ r ∧ r < 4 * k + 8 then
        q1gen cb v1 v2 k (r - (4 * k + 4)) c
      else M r c := by
  simp only [Q1step]
  by_cases h1 : r < 4 ∧ 4 * k + 4 ≤ c ∧ c < 4 * k + 8
  · have hA : ¬(4 * k + 4 ≤ r ∧ r < 4 * k + 4 + 4 ∧ 0 ≤ c ∧ c < 0 + 4) := by omega
    have hB : 0 ≤ r ∧ r < 0 + 4 ∧ 4 * k + 4 ≤ c ∧ c < 4 * k + 4 + 4 := by omega
    rw [if_pos h1, wblock_out hA, wblock_in hB]
    simp only [Nat.sub_zero]
    rw [hM r (4 * k + 4 + (c - (4 * k + 4))) (Or.inl ⟨h1.1, by omega⟩)]
    unfold q1gen
    ring
  · by_cases h2 : c < 4 ∧ 4 * k + 4 ≤ r ∧ r < 4 * k + 8
    · have hA : 4 * k + 4 ≤ r ∧ r < 4 * k + 4 + 4 ∧ 0 ≤ c ∧ c < 0 + 4 := by omega
      rw [if_neg h1, if_pos h2, wblock_in hA]
      simp only [Nat.sub_zero]
      have hB : ¬(0 ≤ 4 * k + 4 + (r - (4 * k + 4)) ∧
          4 * k + 4 + (r - (4 * k + 4)) < 0 + 4 ∧ 4 * k + 4 ≤ c ∧ c < 4 * k + 4 + 4) := by
        omega
      rw [wblock_out hB]
      rw [hM (4 * k + 4 + (r - (4 * k + 4))) c (Or.inr ⟨h2.1, by omega⟩)]
      unfold q1gen
      ring
    · have hA : ¬(4 * k + 4 ≤ r ∧ r < 4 * k + 4 + 4 ∧ 0 ≤ c ∧ c < 0 + 4) := by omega
      have hB : ¬(0 ≤ r ∧ r < 0 + 4 ∧ 4 * k + 4 ≤ c ∧ c < 4 * k + 4 + 4) := by omega
      rw [if_neg h1, if_neg h2, wblock_out hA, wblock_out hB]

/-- Entry-level description of `Q2step`: on a matrix vanishing at rows
`≥ 4k+4`, the step writes the fresh diagonal block and leaves the rest. -/
lemma q2step_apply (cb : ℚ) (v1 v2 : List Pt3) (k : ℕ) (M : Mat)
    (hM : ∀ r c, 4 * k + 4 ≤ r → M r c = 0)
    (r c : ℕ) :
    Q2step cb v1 v2 M k r c =
      if 4 * k + 4 ≤ r ∧ r < 4 * k + 8 ∧ 4 * k + 4 ≤ c ∧ c < 4 * k + 8 then
        q2gen cb v1 v2 k (r - (4 * k + 4)) (c - (4 * k + 4))
      else M r c := by
  simp only [Q2step]
  by_cases h1 : 4 * k + 4 ≤ r ∧ r < 4 * k + 8 ∧ 4 * k + 4 ≤ c ∧ c < 4 * k + 8
  · have hA : 4 * k + 4 ≤ r ∧ r < 4 * k + 4 + 4 ∧ 4 * k + 4 ≤ c ∧ c < 4 * k + 4 + 4 := by
      omega
    rw [if_pos h1, wblock_in hA]
    rw [hM (4 * k + 4 + (r - (4 * k + 4))) (4 * k + 4 + (c - (4 * k + 4))) (by omega)]
    unfold q2gen
    ring
  · have hA : ¬(4 * k + 4 ≤ r ∧ r < 4 * k + 4 + 4 ∧ 4 * k + 4 ≤ c ∧ c < 4 * k + 4 + 4) := by
      omega
    rw [if_neg h1, wblock_out hA]

lemma q1step_inv (cb : ℚ) (v1 v2 : List Pt3) (k : ℕ) (M : Mat)
    (h : SymZero1 k M) : SymZero1 (k + 1) (Q1step cb v1 v2 M k) := by
  obtain ⟨hsym, hsupp⟩ := h
  have hM : ∀ r c, ((r < 4 ∧ 4 * k + 4 ≤ c) ∨ (c < 4 ∧ 4 * k + 4 ≤ r)) → M r c = 0 := by
    intro r c hrc
    by_contra hne
    rcases hsupp r c hne with hcase | hcase <;> omega
  constructor
  · intro r c
    rw [q1step_apply cb v1 v2 k M hM r c, q1step_apply cb v1 v2 k M hM c r]
    by_cases h1 : r < 4 ∧ 4 * k + 4 ≤ c ∧ c < 4 * k + 8
    · rw [if_pos h1, if_neg (by omega), if_pos (by omega)]
      exact q1gen_symm cb v1 v2 k r (c - (4 * k + 4)) h1.1 (by omega)
    · by_cases h2 : c < 4 ∧ 4 * k + 4 ≤ r ∧ r < 4 * k + 8
      · rw [if_neg h1, if_pos h2, if_pos (by omega)]
        exact (q1gen_symm cb v1 v2 k c (r - (4 * k + 4)) h2.1 (by omega)).symm
      · rw [if_neg h1, if_neg h2, if_neg (by omega), if_neg (by omega)]
        exact hsym r c
  · intro r c hne
    rw [q1step_apply cb v1 v2 k M hM r c] at hne
    by_cases h1 : r < 4 ∧ 4 * k + 4 ≤ c ∧ c < 4 * k + 8
    · left; omega
    · by_cases h2 : c < 4 ∧ 4 * k + 4 ≤ r ∧ r < 4 * k + 8
      · right; omega
      · rw [if_neg h1, if_neg h2] at hne
        rcases hsupp r c hne with hcase | hcase
        · left; omega
        · right; omega

lemma q2step_inv (cb : ℚ) (v1 v2 : List Pt3) (k : ℕ) (M : Mat)
    (h : SymZero2 k M) : SymZero2 (k + 1) (Q2step cb v1 v2 M k) := by
  obtain ⟨hsym, hsupp⟩ := h
  have hM : ∀ r c, 4 * k + 4 ≤ r → M r c = 0 := by
    intro r c hr
    by_contra hne
    have := hsupp r c hne
    omega
  constructor
  · intro r c
    rw [q2step_apply cb v1 v2 k M hM r c, q2step_apply cb v1 v2 k M hM c r]
    by_cases h1 : 4 * k + 4 ≤ r ∧ r < 4 * k + 8 ∧ 4 * k + 4 ≤ c ∧ c < 4 * k + 8
    · rw [if_pos h1, if_pos (by omega)]
      exact q2gen_symm cb v1 v2 k _ _ (by omega) (by omega)
    · rw [if_neg h1, if_neg (by omega)]
      exact hsym r c
  · intro r c hne
    rw [q2step_apply cb v1 v2 k M hM r c] at hne
    by_cases h1 : 4 * k + 4 ≤ r ∧ r < 4 * k + 8 ∧ 4 * k + 4 ≤ c ∧ c < 4 * k + 8
    · refine ⟨by omega, by omega, by omega, by omega, ?_⟩
      omega
    · rw [if_neg h1] at hne
      have := hsupp r c hne
      omega

lemma q1fold_inv (cb : ℚ) (v1 v2 : List Pt3) (n : ℕ) :
    SymZero1 n ((List.range n).foldl (Q1step cb v1 v2) zeroMat) := by
  induction n with
  | zero =>
    constructor
    · intro r c; rfl
    · intro r c hne; exact absurd rfl hne
  | succ n ih =>
    rw [List.range_succ, List.foldl_append, List.foldl_cons, List.foldl_nil]
    exact q1step_inv cb v1 v2 n _ ih

lemma q2fold_inv (cb : ℚ) (v1 v2 : List Pt3) (n : ℕ) :
    SymZero2 n ((List.range n).foldl (Q2step cb v1 v2) zeroMat) := by
  induction n with
  | zero =>
    constructor
    · intro r c; rfl
    · intro r c hne; exact absurd rfl hne
  | succ n ih =>
    rw [List.range_succ, List.foldl_append, List.foldl_cons, List.foldl_nil]
    exact q2step_inv cb v1 v2 n _ ih

lemma foldTriplets_zero (ts : List (ℕ × ℕ × ℚ)) :
    (∀ t ∈ ts, t.2.2 = 0) → ∀ M : Mat, (∀ a b, M a b = 0) → ∀ r c,
      (ts.foldl (fun M t => fun r c => if r = t.1 ∧ c = t.2.1 then M r c + t.2.2 else M r c)
        M) r c = 0 := by
  induction ts with
  | nil => intro _ M hM r c; exact hM r c
  | cons t ts ih =>
    intro h M hM r c
    simp only [List.foldl_cons]
    refine ih (fun u hu => h u (List.mem_cons_of_mem t hu)) _ ?_ r c
    intro a b
    by_cases hc : a = t.1 ∧ b = t.2.1
    · rw [if_pos hc, hM a b, h t (List.mem_cons_self t ts), add_zero]
    · rw [if_neg hc]; exact hM a b

lemma setFromTriplets_zero (ts : List (ℕ × ℕ × ℚ)) (h : ∀ t ∈ ts, t.2.2 = 0)
    (r c : ℕ) : setFromTriplets ts r c = 0 :=
  foldTriplets_zero ts h (fun _ _ => 0) (fun _ _ => rfl) r c

/-- Every entry of the matrix built by `getLinearProjection` is zero, for every
input: the C integer division `1 / (2 * N0 + 6)` truncates to 0 (the divisor
is at least 6), so every triplet value, diagonal included, is zero. -/
lemma getLinearProjection_zero (th : List ℚ) (r c : ℕ) :
    getLinearProjection th r c = 0 := by
  have hy : (1 : ℕ) / (2 * (th.length - 1) + 6) = 0 := Nat.div_eq_of_lt (by omega)
  simp only [getLinearProjection]
  apply setFromTriplets_zero
  intro t ht
  rw [List.mem_append] at ht
  rcases ht with ht | ht
  · rw [List.mem_flatten] at ht
    obtain ⟨l, hl, htl⟩ := ht
    rw [List.mem_map] at hl
    obtain ⟨ij, _, rfl⟩ := hl
    rw [List.mem_append] at htl
    rcases htl with htl | htl <;>
    · rw [List.mem_filterMap] at htl
      obtain ⟨p, _, hp⟩ := htl
      split at hp
      · split at hp <;> (cases hp; simp [hy])
      · cases hp
  · rw [List.mem_map] at ht
    obtain ⟨i, _, rfl⟩ := ht
    simp [hy]

/-- Claim C1: for N ≥ 2 and a theta-prepended ±1 vector, `getLinearProjection`
is claimed to return a matrix whose diagonal entries equal one common nonzero
constant and whose nonzero off-diagonal entries are ±θa·θb/(2N+6).  At the
failing input N = 2, th = (1, 1, 1), every entry of the returned 3 x 3 matrix
is zero (the source computes `int y = 1 / (2 * N0 + 6)`, which truncates to 0,
and `x = (N0 + 1) * y = 0`), so no diagonal entry is nonzero. -/
theorem c1_linear_projection_all_zero :
    getLinearProjection [1, 1, 1] 0 0 = 0 ∧ getLinearProjection [1, 1, 1] 1 1 = 0 ∧
    getLinearProjection [1, 1, 1] 2 2 = 0 ∧ getLinearProjection [1, 1, 1] 0 1 = 0 ∧
    getLinearProjection [1, 1, 1] 1 0 = 0 ∧ getLinearProjection [1, 1, 1] 0 2 = 0 ∧
    getLinearProjection [1, 1, 1] 2 0 = 0 ∧ getLinearProjection [1, 1, 1] 1 2 = 0 ∧
    getLinearProjection [1, 1, 1] 2 1 = 0 :=
  ⟨getLinearProjection_zero _ 0 0, getLinearProjection_zero _ 1 1,
   getLinearProjection_zero _ 2 2, getLinearProjection_zero _ 0 1,
   getLinearProjection_zero _ 1 0, getLinearProjection_zero _ 0 2,
   getLinearProjection_zero _ 2 0, getLinearProjection_zero _ 1 2,
   getLinearProjection_zero _ 2 1⟩

/-- Claim C2: the affine projection is claimed to be idempotent on symmetric
W.  At N = 2, W the symmetric zero 12 x 12 matrix, th = (1, 1, 1) and the
matching `A_inv`, `getOptimalDualProjection` does not return a matrix at all:
its first loop multiplies by `temp_B`, which the source declares but never
assigns (line 198 assigns `temp_A` a second time instead), so the projection
faults and `project(project(W)) = project(W)` cannot hold. -/
theorem c2_dual_projection_uninit :
    getOptimalDualProjection 12 zeroMat [1, 1, 1] (getLinearProjection [1, 1, 1]) =
      Except.error CErr.uninitRead := rfl

/-- Claim C3: `getLambdaGuess` output is claimed to be a fixed point of
`getOptimalDualProjection`.  At the valid input R = I, th = (1, 1, 1),
src = dst = two distinct points, `getLambdaGuess` performs the out-of-bounds
read `theta(1, 0)` (row index 1 into the one-row vector `theta`) and produces
no Λ₀, so the fixed-point property cannot hold; the projection itself also
faults on its never-assigned `temp_B` (see the C2 theorem). -/
theorem c3_lambda_guess_no_fixed_point :
    getLambdaGuess 1 idMat3 [1, 1, 1] [exP1, exP2] [exP1, exP2] =
      Except.error CErr.oobRead := rfl

/-- Claim C4: for source/destination point sets of common length N ≥ 1, the
matrix built by `getQCost` is exactly symmetric and its top-left 4 x 4 block
is exactly zero (every entry of that block is `Q (r % 4) (c % 4)`). -/
theorem c4_qcost_symmetric_zero_block (cb : ℚ) (v1 v2 : List Pt3)
    (hN : 1 ≤ v1.length) (hlen : v2.length = v1.length) (r c : ℕ) :
    getQCost cb v1 v2 r c = getQCost cb v1 v2 c r ∧
    getQCost cb v1 v2 (r % 4) (c % 4) = 0 := by
  have h1 : SymZero1 v1.length (Q1mat cb v1 v2) := q1fold_inv cb v1 v2 v1.length
  have h2 : SymZero2 v1.length (Q2mat cb v1 v2) := q2fold_inv cb v1 v2 v1.length
  constructor
  · simp only [getQCost]
    rw [h1.1 r c, h2.1 r c]
  · have z1 : Q1mat cb v1 v2 (r % 4) (c % 4) = 0 := by
      by_contra hne
      rcases h1.2 _ _ hne with hh | hh <;> omega
    have z2 : Q2mat cb v1 v2 (r % 4) (c % 4) = 0 := by
      by_contra hne
      have := h2.2 _ _ hne
      omega
    simp only [getQCost]
    rw [z1, z2, add_zero]

/-- Witness for C4 at the concrete input cb = 1, v1 = [(1,2,3)],
v2 = [(2,0,5)], entry (2, 7). -/
theorem c4_qcost_symmetric_zero_block_witness :
    1 ≤ ([exP1] : List Pt3).length ∧ ([exP2] : List Pt3).length = ([exP1] : List Pt3).length ∧
    (getQCost 1 [exP1] [exP2] 2 7 = getQCost 1 [exP1] [exP2] 7 2 ∧
     getQCost 1 [exP1] [exP2] (2 % 4) (7 % 4) = 0) :=
  ⟨by decide, by decide,
   c4_qcost_symmetric_zero_block 1 [exP1] [exP2] (by decide) (by decide) 2 7⟩

/-- Claim C5: the right-hand-side row `b_W[pairIndex(i,j)]` is claimed to be
`[-θiθj, 1]` times the rows `W[4i+3, 4i..4i+2]`, `W[4j+3, 4i..4i+2]` plus
`[-1, θiθj]` times the rows at columns `4j..4j+2`.  The source instead sets
`col_idx_end = i*4 + 3` (so both stacked rows come from row `4i+3`) and
assigns `[-1, θij]` to `temp_A` a second time, leaving `temp_B` unassigned;
the product that builds the row therefore reads an indeterminate value, and
the per-pair computation faults at every pair. -/
theorem c5_bw_row_uninit :
    bWrow symEx [1, 1, -1] 0 1 = Except.error CErr.uninitRead ∧
    getOptimalDualProjection 12 symEx [1, 1, -1] (getLinearProjection [1, 1, -1]) =
      Except.error CErr.uninitRead := ⟨rfl, rfl⟩

/-- Claim C6: `getOmega1 q` is claimed to be the (orthogonal) left
multiplication matrix of the unit quaternion q, so that the block embedding D
satisfies Dᵀ·D = I.  At the unit quaternion q = (x,y,z,w) = (1,0,0,0), column
0 of `getBlockDiagOmega 8 q` is identically zero (the source writes `q.z()`
where the left-multiplication matrix has `q.x()` in rows 2-4), so the (0,0)
entry of Dᵀ·D is 0, not 1. -/
theorem c6_block_diag_omega_not_orthogonal :
    qEx.x * qEx.x + qEx.y * qEx.y + qEx.z * qEx.z + qEx.w * qEx.w = 1 ∧
    (Finset.range 8).sum
      (fun r => getBlockDiagOmega 8 qEx r 0 * getBlockDiagOmega 8 qEx r 0) = 0 := by
  constructor
  · norm_num [qEx]
  · norm_num [Finset.sum_range_succ, getBlockDiagOmega, List.range_succ, wblock,
      getOmega1, qEx, zeroMat]

/-- Claim C7: `getLambdaGuess` is claimed to return a 4(N+1) x 4(N+1)
block-diagonal matrix with the per-correspondence blocks at (k,k) and their
sum at (0,0).  With the theta-prepended vector (length N+1 = 3) the source
sets `K = theta.size() = 3` and `Npm = 4K + 4 = 16` (not 12), and each loop
iteration reads `theta(1, i)`, a row-1 access into the one-row vector, so at
the failing input N = 2 the function faults on an out-of-bounds read instead
of returning the claimed matrix. -/
theorem c7_lambda_guess_oob :
    getLambdaGuess 1 idMat3 [1, -1, 1] [exP1, exP2] [exP2, exP1] =
      Except.error CErr.oobRead := rfl

/-- Claim C8: `getBlockRowSum(A, i, th)` is claimed to multiply the slice of
rows `4i .. 4i+3` of A by `kron(th, e4)`.  The source sets `start_idx = row`
(not `row * 4`): at A with every entry equal to its row index, block index 1,
th = (1, 1), the first output component is 2 (rows 1..4 are used), whereas
the claimed slice of rows 4..7 would give 8. -/
theorem c8_block_row_sum_wrong_rows :
    getBlockRowSum rowIdxMat 8 1 [1, 1] 0 = 2 ∧
    (Finset.range 8).sum
      (fun c => rowIdxMat (4 + 0) c * (vectorKron [1, 1] [0, 0, 0, 1]).getD c 0) = 8 := by
  constructor <;>
    norm_num [getBlockRowSum, vectorKron, rowIdxMat, Finset.sum_range_succ, List.getD]

/-- Claim C9: `certify` is claimed to fail fast with a distinguishable
invalid-input error on precondition violations.  The source performs no
validation at all: at the invalid input (2 source points, 3 destination
points, 2 indicators) it faults with exactly the same comma-initializer error
as at a well-formed input (2 source points, 2 destination points, 2
indicators), so the failure does not distinguish invalid inputs. -/
theorem c9_no_input_validation :
    certify 1 5 toQuatEx idMat3 [exP1, exP2] [exP1, exP2, exP2] [true, true] =
      Except.error CErr.commaInit ∧
    certify 1 5 toQuatEx idMat3 [exP1, exP2] [exP1, exP2] [true, true] =
      Except.error CErr.commaInit := ⟨rfl, rfl⟩

/-- Claim C10: for every input, the first statement of `certify` streams N+1
values into the never-resized (size 0) dynamic row vector `theta_prepended`,
an out-of-bounds write; in this total embedding `certify` errors on every
input and never reaches the construction of A_inv, Q, D, or the initial
guess. -/
theorem c10_certify_always_faults (cb : ℚ) (mi : ℕ) (tq : Mat → Quat) (R : Mat)
    (src dst : List Pt3) (th : List Bool) :
    certify cb mi tq R src dst th = Except.error CErr.commaInit := rfl

end Certification
